import Mathlib

/-
  Shallow embedding of the SkSL scoped symbol table and name-resolution engine
  (src/src/sksl/ir/SkSLSymbolTable.cpp) in Lean 4.

  Modelling choices:
  * Symbols live in a heap `State.syms : List SymbolData`; a `SymbolId` is the
    symbol's index in that list, mirroring `Symbol*` pointers.  Allocation is
    appending to the list.
  * Symbol tables live in `State.tables : List Table`; a `TableId` is a
    table's index, mirroring `SymbolTable*`.  The well-formedness predicate
    `State.wfB` demands that each table's parent index is strictly smaller,
    which mirrors the acyclic, finite parent chain of the source; bounded
    lookup fuel `tid + 1` then always suffices.
  * `SymbolKey` equality coincides with name equality (the spec: two symbols
    with equal names produce equal keys), so keys are modelled as the names.
  * The error sink (`ThreadContext::ReportError` / `context.fErrors->error`)
    is modelled as an append-only list of structured errors in the state.
  * `Position` is opaque in the source and is modelled as a `Nat`.
-/

set_option maxHeartbeats 1600000

namespace SkSL

abbrev SymbolId := Nat

abbrev TableId := Nat

/-- The variant kind of a symbol (`Symbol::Kind` plus the per-variant data the
code reads: a function declaration's intrusive `nextOverload` link, a field
symbol's owner and index, a type's `isInBuiltinTypes` marker). -/
inductive SymbolKind where
  | functionDecl (nextOverload : Option SymbolId)
  | var
  | field (owner : SymbolId) (fieldIndex : Nat)
  | type (inBuiltin : Bool)
deriving DecidableEq, Repr

/-- A symbol: mutable name view, declaration position (`fPosition`), kind. -/
structure SymbolData where
  name : String
  pos : Nat
  kind : SymbolKind
deriving DecidableEq, Repr

/-- Whether a symbol `is<FunctionDeclaration>()`. -/
def SymbolKind.isFn : SymbolKind → Bool
  | SymbolKind.functionDecl _ => true
  | _ => false

/-- Whether a symbol is a `Type` with `isInBuiltinTypes()` set. -/
def SymbolData.inBuiltinTypes : SymbolData → Bool
  | ⟨_, _, SymbolKind.type b⟩ => b
  | _ => false

/-- One node of the scope tree: `fParent`, `fBuiltin`, `fAtModuleBoundary`,
the local mapping `fSymbols` (an association list keyed by name), and the
owned-string arena `fOwnedStrings`. -/
structure Table where
  parent : Option TableId
  builtin : Bool
  atModuleBoundary : Bool
  symbols : List (String × SymbolId)
  ownedStrings : List String
deriving DecidableEq, Repr

/-- Structured model of the reported error messages: a duplicate-symbol
error carries the name the source interpolates into the message, an
unknown-identifier error carries the unresolved name. -/
inductive ErrKind where
  | duplicateSymbol (name : String)
  | unknownIdentifier (name : String)
deriving DecidableEq, Repr

/-- The whole mutable world: the scope tree, the symbol heap, and the error
sink (a list of (error, position) pairs in report order). -/
structure State where
  tables : List Table
  syms : List SymbolData
  errors : List (ErrKind × Nat)
deriving DecidableEq, Repr

/-- Association-list find, mirroring `fSymbols.find(key)`. -/
def assocFind : List (String × SymbolId) → String → Option SymbolId
  | [], _ => none
  | (k, v) :: rest, key => if k = key then some v else assocFind rest key

/-- Association-list store, mirroring `fSymbols[key] = symbol` (replace the
existing entry for the key, or add a fresh one). -/
def assocSet : List (String × SymbolId) → String → SymbolId → List (String × SymbolId)
  | [], key, v => [(key, v)]
  | (k, w) :: rest, key, v =>
    if k = key then (key, v) :: rest else (k, w) :: assocSet rest key v

/-- Every table's parent index is strictly below its own index: the parent
chain of the source is finite and acyclic, and tables are created after
their parents. -/
def State.wfB (s : State) : Bool :=
  (List.range s.tables.length).all fun i =>
    match s.tables[i]? with
    | some t =>
      match t.parent with
      | some p => decide (p < i)
      | none => true
    | none => true

/-- Append an error to the sink (`ThreadContext::ReportError` and
`ErrorReporter::error`). -/
def reportErr (s : State) (k : ErrKind) (pos : Nat) : State :=
  { s with errors := s.errors ++ [(k, pos)] }

/-- Overwrite the heap cell of a symbol (a mutation through a `Symbol*`). -/
def setSym (s : State) (sid : SymbolId) (d : SymbolData) : State :=
  { s with syms := s.syms.set sid d }

/-- Store a symbol in a table's local mapping (`fSymbols[key] = symbol`). -/
def setSlot (s : State) (tid : TableId) (key : String) (sid : SymbolId) : State :=
  match s.tables[tid]? with
  | some t =>
    { s with tables := s.tables.set tid { t with symbols := assocSet t.symbols key sid } }
  | none => s

/-- `SymbolTable::lookup`, fuel-bounded: consult the local mapping, else
recurse into the parent. -/
def lookupFuel (s : State) : Nat → TableId → String → Option SymbolId
  | 0, _, _ => none
  | fuel + 1, tid, key =>
    match s.tables[tid]? with
    | none => none
    | some t =>
      match assocFind t.symbols key with
      | some sid => some sid
      | none =>
        match t.parent with
        | some p => lookupFuel s fuel p key
        | none => none

/-- `SymbolTable::lookup(key)`; under `State.wfB` the fuel `tid + 1` always
covers the whole parent chain. -/
def lookup (s : State) (tid : TableId) (key : String) : Option SymbolId :=
  lookupFuel s (tid + 1) tid key

/-- Modelled from the spec: `SymbolTable::find(name)` lives in the header
SkSLSymbolTable.h, which is not part of the sources; per the spec it builds
the key from the name and delegates to `lookup`. -/
def find (s : State) (tid : TableId) (name : String) : Option SymbolId :=
  lookup s tid name

/-- `SymbolTable::isType`: `find` resolves the name to a `Type` symbol. -/
def isType (s : State) (tid : TableId) (name : String) : Bool :=
  match find s tid name with
  | some sid =>
    match s.syms[sid]? with
    | some sym =>
      match sym.kind with
      | SymbolKind.type _ => true
      | _ => false
    | none => false
  | none => false

/-- `SymbolTable::isBuiltinType`, fuel-bounded: delegate to the parent until
a builtin table is reached, then answer `isType` there. -/
def isBuiltinTypeFuel (s : State) : Nat → TableId → String → Bool
  | 0, _, _ => false
  | fuel + 1, tid, name =>
    match s.tables[tid]? with
    | none => false
    | some t =>
      if t.builtin then isType s tid name
      else
        match t.parent with
        | some p => isBuiltinTypeFuel s fuel p name
        | none => false

/-- `SymbolTable::isBuiltinType`. -/
def isBuiltinType (s : State) (tid : TableId) (name : String) : Bool :=
  isBuiltinTypeFuel s (tid + 1) tid name

/-- `SymbolTable::findBuiltinSymbol`, fuel-bounded. -/
def findBuiltinSymbolFuel (s : State) : Nat → TableId → String → Option SymbolId
  | 0, _, _ => none
  | fuel + 1, tid, name =>
    match s.tables[tid]? with
    | none => none
    | some t =>
      if t.builtin then find s tid name
      else
        match t.parent with
        | some p => findBuiltinSymbolFuel s fuel p name
        | none => none

/-- `SymbolTable::findBuiltinSymbol`. -/
def findBuiltinSymbol (s : State) (tid : TableId) (name : String) : Option SymbolId :=
  findBuiltinSymbolFuel s (tid + 1) tid name

/-- `SymbolTable::wouldShadowSymbolsFrom`: do the two local mappings share a
key?  The source iterates the smaller mapping and probes the other. -/
def wouldShadowSymbolsFrom (s : State) (tid otherTid : TableId) : Bool :=
  match s.tables[tid]?, s.tables[otherTid]? with
  | some a, some b =>
    let pair := if a.symbols.length > b.symbols.length then (b, a) else (a, b)
    pair.1.symbols.any fun kv => (assocFind pair.2.symbols kv.1).isSome
  | _, _ => false

/-- `SymbolTable::takeOwnershipOfString`: push the string onto the table's
owned-string arena (`push_front`; addresses are stable). -/
def takeOwnershipOfString (s : State) (tid : TableId) (str : String) : State :=
  match s.tables[tid]? with
  | some t =>
    { s with tables := s.tables.set tid { t with ownedStrings := str :: t.ownedStrings } }
  | none => s

/-- The module-boundary rejection test of `addWithoutOwnership`:
`fAtModuleBoundary && fParent && fParent->lookup(key)`. -/
def boundaryRejects (s : State) (t : Table) (key : String) : Bool :=
  t.atModuleBoundary &&
    match t.parent with
    | some p => (lookup s p key).isSome
    | none => false

/-- The function-overload test of `addWithoutOwnership`: when the inserted
symbol is a `FunctionDeclaration` and `lookup` resolves the key to an
existing `FunctionDeclaration`, return that existing declaration. -/
def overloadTarget (s : State) (tid : TableId) (sym : SymbolData) : Option SymbolId :=
  match sym.kind with
  | SymbolKind.functionDecl _ =>
    match lookup s tid sym.name with
    | some eid =>
      match s.syms[eid]? with
      | some e =>
        match e.kind with
        | SymbolKind.functionDecl _ => some eid
        | _ => none
      | none => none
    | none => none
  | _ => none

/-- The name interpolated into the duplicate-symbol message of the
replace branch: after the `std::swap`, `symbol` is the previously stored
symbol, so the message carries the old symbol's name. -/
def symName (s : State) (sid : SymbolId) : String :=
  match s.syms[sid]? with
  | some d => d.name
  | none => ""

/-- `SymbolTable::addWithoutOwnership`.  Empty names are never registered;
a function inserted over an existing function becomes the new overload-chain
head; at a module boundary a name already resolvable from the parent is
rejected with a duplicate-symbol error; otherwise the symbol is stored, and
if the slot was occupied a duplicate-symbol error is reported (the message
names the swapped-out symbol, the position is the new symbol's). -/
def addWithoutOwnership (s : State) (tid : TableId) (symId : SymbolId) : State :=
  match s.syms[symId]?, s.tables[tid]? with
  | some sym, some t =>
    if sym.name = "" then s
    else
      match overloadTarget s tid sym with
      | some eid =>
        setSlot (setSym s symId { sym with kind := SymbolKind.functionDecl (some eid) })
          tid sym.name symId
      | none =>
        if boundaryRejects s t sym.name then
          reportErr s (ErrKind.duplicateSymbol sym.name) sym.pos
        else
          match assocFind t.symbols sym.name with
          | none => setSlot s tid sym.name symId
          | some oldId =>
            reportErr (setSlot s tid sym.name symId)
              (ErrKind.duplicateSymbol (symName s oldId)) sym.pos
  | _, _ => s

/-- `SymbolTable::injectWithoutOwnership`: unconditional store of the slot,
with no empty-name check, no overload logic, no boundary check, no error. -/
def injectWithoutOwnership (s : State) (tid : TableId) (symId : SymbolId) : State :=
  match s.syms[symId]? with
  | some sym => setSlot s tid sym.name symId
  | none => s

/-- The rename loop of `SymbolTable::renameSymbol`: walk the overload chain,
renaming every node. -/
def renameChainFuel (s : State) : Nat → Option SymbolId → String → State
  | _, none, _ => s
  | 0, some _, _ => s
  | fuel + 1, some fid, newName =>
    match s.syms[fid]? with
    | none => s
    | some sym =>
      let s2 := setSym s fid { sym with name := newName }
      match sym.kind with
      | SymbolKind.functionDecl nxt => renameChainFuel s2 fuel nxt newName
      | _ => s2

/-- `SymbolTable::renameSymbol`: rename the whole overload chain of a
function declaration (just the symbol otherwise), then re-register the
symbol under the new name via `addWithoutOwnership`. -/
def renameSymbol (s : State) (tid : TableId) (symId : SymbolId) (newName : String) : State :=
  match s.syms[symId]? with
  | none => s
  | some sym =>
    let s2 :=
      match sym.kind with
      | SymbolKind.functionDecl _ => renameChainFuel s (s.syms.length + 1) (some symId) newName
      | _ => setSym s symId { sym with name := newName }
    addWithoutOwnership s2 tid symId

/-- Modelled from the spec: `Type::getArrayName` is outside the sources; the
spec describes it as a canonical name computed from the base type and the
size. -/
def getArrayName (baseName : String) (arraySize : Int) : String :=
  baseName ++ "[" ++ toString arraySize ++ "]"

/-- Modelled from the spec: `Type::MakeArrayType(name, base, size)` is a
factory outside this core producing an array `Type` over the given name; the
builtin marker is inherited from the base type. -/
def MakeArrayType (arrayName : String) (base : SymbolData) : SymbolData :=
  { name := arrayName, pos := base.pos, kind := SymbolKind.type base.inBuiltinTypes }

/-- Modelled from the spec: `SymbolTable::add` lives in the header, which is
not part of the sources; per the spec it is `addWithoutOwnership` for a
symbol the table owns outright, returning the inserted symbol. -/
def add (s : State) (tid : TableId) (sym : SymbolData) : State × SymbolId :=
  let newId := s.syms.length
  let s2 := { s with syms := s.syms ++ [sym] }
  (addWithoutOwnership s2 tid newId, newId)

/-- `SymbolTable::addArrayDimension`, fuel-bounded on the parent delegation:
size 0 returns the base type unchanged; a builtin base type is delegated to
the parent while the table has one and is not at a module boundary; otherwise
the canonical array name is resolved via `find` (cache hit) or a new array
type is allocated, its name-string taken into the arena, and registered. -/
def addArrayDimensionFuel (s : State) : Nat → TableId → SymbolId → Int → State × SymbolId
  | 0, _, tyId, _ => (s, tyId)
  | fuel + 1, tid, tyId, arraySize =>
    if arraySize = 0 then (s, tyId)
    else
      match s.tables[tid]?, s.syms[tyId]? with
      | some t, some ty =>
        match t.parent, ty.inBuiltinTypes && !t.atModuleBoundary with
        | some p, true => addArrayDimensionFuel s fuel p tyId arraySize
        | _, _ =>
          let arrayName := getArrayName ty.name arraySize
          match find s tid arrayName with
          | some existingId => (s, existingId)
          | none =>
            let s2 := takeOwnershipOfString s tid arrayName
            add s2 tid (MakeArrayType arrayName ty)
      | _, _ => (s, tyId)

/-- `SymbolTable::addArrayDimension`; under `State.wfB` the fuel `tid + 1`
covers the whole parent chain. -/
def addArrayDimension (s : State) (tid : TableId) (tyId : SymbolId) (arraySize : Int) :
    State × SymbolId :=
  addArrayDimensionFuel s (tid + 1) tid tyId arraySize

/-- Read-access kinds of a variable reference (`VariableReference::RefKind`);
resolution always produces `read`. -/
inductive RefKind where
  | read
  | write
deriving DecidableEq, Repr

/-- The reference nodes synthesized by `instantiateSymbolRef`.  The factories
`FunctionReference`, `VariableReference::Make`, `FieldAccess::Make` and
`TypeReference::Convert` are outside the sources and modelled from the spec:
a function reference to the declaration, a variable reference with an access
kind, a field access over a base expression selecting a field index, a type
reference. -/
inductive Expr where
  | functionRef (pos : Nat) (decl : SymbolId)
  | varRef (pos : Nat) (v : SymbolId) (refKind : RefKind)
  | fieldAccess (pos : Nat) (base : Expr) (fieldIndex : Nat)
  | typeRef (pos : Nat) (ty : SymbolId)
deriving DecidableEq, Repr

/-- `SymbolTable::instantiateSymbolRef`: resolve the name; report an
unknown-identifier error and fail when unresolvable; otherwise synthesize
the reference node matching the symbol's kind (a variable reference defaults
to read access; a field becomes a field access over a read reference to its
owner). -/
def instantiateSymbolRef (s : State) (tid : TableId) (name : String) (pos : Nat) :
    State × Option Expr :=
  match find s tid name with
  | none => (reportErr s (ErrKind.unknownIdentifier name) pos, none)
  | some rid =>
    match s.syms[rid]? with
    | none => (s, none)
    | some r =>
      match r.kind with
      | SymbolKind.functionDecl _ => (s, some (Expr.functionRef pos rid))
      | SymbolKind.var => (s, some (Expr.varRef pos rid RefKind.read))
      | SymbolKind.field owner idx =>
        (s, some (Expr.fieldAccess pos (Expr.varRef pos owner RefKind.read) idx))
      | SymbolKind.type _ => (s, some (Expr.typeRef pos rid))

/-- A step of the parent-delegation walk of `addArrayDimension`: `k` steps of
tables that have a parent and are not at a module boundary lead from `tid` to
`anc`. -/
def climbsB (s : State) : Nat → TableId → TableId → Bool
  | 0, tid, anc => tid = anc
  | k + 1, tid, anc =>
    match s.tables[tid]? with
    | some t =>
      !t.atModuleBoundary &&
        match t.parent with
        | some p => climbsB s k p anc
        | none => false
    | none => false

/-- The list of symbol ids reached by following `nextOverload` links from a
head, ending at a null link (an overload chain of function declarations). -/
def chainFromB (s : State) : Option SymbolId → List SymbolId → Bool
  | none, [] => true
  | some fid, fid2 :: rest =>
    if fid = fid2 then
      match s.syms[fid]? with
      | some sym =>
        match sym.kind with
        | SymbolKind.functionDecl nxt => chainFromB s nxt rest
        | _ => false
      | none => false
    else false
  | _, _ => false

/-- Concrete scenario: a builtin root defining variable `n`, and a
module-boundary child table; symbol 1 is a second variable named `n`. -/
def exC1 : State :=
  { tables :=
      [ { parent := none, builtin := true, atModuleBoundary := false,
          symbols := [("n", 0)], ownedStrings := [] },
        { parent := some 0, builtin := false, atModuleBoundary := true,
          symbols := [], ownedStrings := [] } ],
    syms :=
      [ { name := "n", pos := 0, kind := SymbolKind.var },
        { name := "n", pos := 7, kind := SymbolKind.var } ],
    errors := [] }

/-- Concrete scenario: one empty table and two function declarations both
named `f`. -/
def exC2 : State :=
  { tables :=
      [ { parent := none, builtin := false, atModuleBoundary := false,
          symbols := [], ownedStrings := [] } ],
    syms :=
      [ { name := "f", pos := 1, kind := SymbolKind.functionDecl none },
        { name := "f", pos := 2, kind := SymbolKind.functionDecl none } ],
    errors := [] }

/-- Concrete scenario: a module-boundary table whose parent binds `n` to a
variable, plus two function declarations named `n` to be inserted. -/
def exC2x : State :=
  { tables :=
      [ { parent := none, builtin := true, atModuleBoundary := false,
          symbols := [("n", 0)], ownedStrings := [] },
        { parent := some 0, builtin := false, atModuleBoundary := true,
          symbols := [], ownedStrings := [] } ],
    syms :=
      [ { name := "n", pos := 0, kind := SymbolKind.var },
        { name := "n", pos := 5, kind := SymbolKind.functionDecl none },
        { name := "n", pos := 7, kind := SymbolKind.functionDecl none } ],
    errors := [] }

/-- Concrete scenario: one table whose local mapping binds `v` to variable 0;
symbol 1 is a second variable named `v`. -/
def exC3 : State :=
  { tables :=
      [ { parent := none, builtin := false, atModuleBoundary := false,
          symbols := [("v", 0)], ownedStrings := [] } ],
    syms :=
      [ { name := "v", pos := 0, kind := SymbolKind.var },
        { name := "v", pos := 9, kind := SymbolKind.var } ],
    errors := [] }

/-- Concrete scenario: a builtin root and two sibling scopes below it;
symbol 0 is a builtin type named `float`. -/
def exC4 : State :=
  { tables :=
      [ { parent := none, builtin := true, atModuleBoundary := false,
          symbols := [], ownedStrings := [] },
        { parent := some 0, builtin := false, atModuleBoundary := false,
          symbols := [], ownedStrings := [] },
        { parent := some 0, builtin := false, atModuleBoundary := false,
          symbols := [], ownedStrings := [] } ],
    syms := [ { name := "float", pos := 0, kind := SymbolKind.type true } ],
    errors := [] }

/-- Concrete scenario: one table binding `a` to function 0, whose overload
chain is 0 → 1. -/
def exC5 : State :=
  { tables :=
      [ { parent := none, builtin := false, atModuleBoundary := false,
          symbols := [("a", 0)], ownedStrings := [] } ],
    syms :=
      [ { name := "a", pos := 0, kind := SymbolKind.functionDecl (some 1) },
        { name := "a", pos := 3, kind := SymbolKind.functionDecl none } ],
    errors := [] }

/-- Concrete scenario: a root table binding `n` to function 0 and an empty
child table; symbol 1 is a second function named `n`. -/
def exC6 : State :=
  { tables :=
      [ { parent := none, builtin := true, atModuleBoundary := false,
          symbols := [("n", 0)], ownedStrings := [] },
        { parent := some 0, builtin := false, atModuleBoundary := false,
          symbols := [], ownedStrings := [] } ],
    syms :=
      [ { name := "n", pos := 0, kind := SymbolKind.functionDecl none },
        { name := "n", pos := 1, kind := SymbolKind.functionDecl none } ],
    errors := [] }

/-- Concrete scenario: one empty table and one anonymous (empty-named)
variable symbol. -/
def exC7 : State :=
  { tables :=
      [ { parent := none, builtin := false, atModuleBoundary := false,
          symbols := [], ownedStrings := [] } ],
    syms := [ { name := "", pos := 0, kind := SymbolKind.var } ],
    errors := [] }

/-- Concrete scenario: one empty root table and no symbols at all. -/
def exC8 : State :=
  { tables :=
      [ { parent := none, builtin := false, atModuleBoundary := false,
          symbols := [], ownedStrings := [] } ],
    syms := [],
    errors := [] }

/-! Helper lemmas about the embedding. -/

theorem assocFind_assocSet_self (l : List (String × SymbolId)) (key : String) (v : SymbolId) :
    assocFind (assocSet l key v) key = some v := by
  induction l with
  | nil => simp [assocFind, assocSet]
  | cons kv rest ih =>
    by_cases h : kv.1 = key
    · simp [assocSet, assocFind, h]
    · simp [assocSet, assocFind, h, ih]

theorem assocFind_assocSet_ne (l : List (String × SymbolId)) {key key2 : String} (v : SymbolId)
    (h : key2 ≠ key) : assocFind (assocSet l key v) key2 = assocFind l key2 := by
  induction l with
  | nil => simp [assocFind, assocSet, Ne.symm h]
  | cons kv rest ih =>
    obtain ⟨k, w⟩ := kv
    by_cases hk : k = key
    · subst hk
      simp [assocSet, assocFind, Ne.symm h]
    · by_cases hk2 : k = key2
      · subst hk2
        simp [assocSet, assocFind, hk]
      · simp [assocSet, assocFind, hk, hk2, ih]

theorem wfB_parent_lt {s : State} (hwf : s.wfB = true) {i : Nat} {t : Table} {p : Nat}
    (ht : s.tables[i]? = some t) (hp : t.parent = some p) : p < i := by
  obtain ⟨hlen, -⟩ := List.getElem?_eq_some_iff.mp ht
  have hall := List.all_eq_true.mp hwf i (List.mem_range.mpr hlen)
  rw [ht] at hall
  simp only [hp, decide_eq_true_eq] at hall
  exact hall

theorem lookupFuel_mono {s : State} (hwf : s.wfB = true) (key : String) :
    ∀ tid f1 f2, tid < f1 → tid < f2 → lookupFuel s f1 tid key = lookupFuel s f2 tid key := by
  intro tid
  induction tid using Nat.strong_induction_on with
  | _ tid ih =>
    intro f1 f2 h1 h2
    obtain ⟨a, rfl⟩ : ∃ a, f1 = a + 1 := ⟨f1 - 1, by omega⟩
    obtain ⟨b, rfl⟩ : ∃ b, f2 = b + 1 := ⟨f2 - 1, by omega⟩
    cases htab : s.tables[tid]? with
    | none => simp only [lookupFuel, htab]
    | some t =>
      simp only [lookupFuel, htab]
      cases hloc : assocFind t.symbols key with
      | some v => simp only [hloc]
      | none =>
        simp only [hloc]
        cases hpar : t.parent with
        | none => simp only [hpar]
        | some p =>
          simp only [hpar]
          have hp : p < tid := wfB_parent_lt hwf htab hpar
          have ha : p < a := Nat.lt_of_lt_of_le hp (Nat.lt_succ_iff.mp h1)
          have hb : p < b := Nat.lt_of_lt_of_le hp (Nat.lt_succ_iff.mp h2)
          exact ih p hp a b ha hb

theorem lookup_unfold {s : State} (hwf : s.wfB = true) {tid : TableId} {t : Table}
    (htab : s.tables[tid]? = some t) (key : String) :
    lookup s tid key =
      match assocFind t.symbols key with
      | some v => some v
      | none =>
        match t.parent with
        | some p => lookup s p key
        | none => none := by
  show lookupFuel s (tid + 1) tid key = _
  simp only [lookupFuel, htab]
  cases hloc : assocFind t.symbols key with
  | some v => simp only [hloc]
  | none =>
    simp only [hloc]
    cases hpar : t.parent with
    | none => simp only [hpar]
    | some p =>
      simp only [hpar]
      have hp : p < tid := wfB_parent_lt hwf htab hpar
      exact lookupFuel_mono hwf key p tid (p + 1) hp (Nat.lt_succ_self p)

theorem lookup_local {s : State} {tid : TableId} {t : Table} {key : String} {v : SymbolId}
    (htab : s.tables[tid]? = some t) (hloc : assocFind t.symbols key = some v) :
    lookup s tid key = some v := by
  show lookupFuel s (tid + 1) tid key = some v
  simp [lookupFuel, htab, hloc]

theorem lookup_none_local {s : State} {tid : TableId} {t : Table} {key : String}
    (htab : s.tables[tid]? = some t) (h : lookup s tid key = none) :
    assocFind t.symbols key = none := by
  cases hloc : assocFind t.symbols key with
  | none => rfl
  | some v => rw [lookup_local htab hloc] at h; cases h

theorem lookup_none_parent {s : State} (hwf : s.wfB = true) {tid : TableId} {t : Table}
    {p : TableId} {key : String} (htab : s.tables[tid]? = some t) (hpar : t.parent = some p)
    (h : lookup s tid key = none) : lookup s p key = none := by
  have hu := lookup_unfold hwf htab key
  rw [h, lookup_none_local htab h, hpar] at hu
  exact hu.symm

theorem boundaryRejects_of_lookup_none {s : State} (hwf : s.wfB = true) {tid : TableId}
    {t : Table} {key : String} (htab : s.tables[tid]? = some t)
    (h : lookup s tid key = none) : boundaryRejects s t key = false := by
  unfold boundaryRejects
  cases hpar : t.parent with
  | none => simp
  | some p => simp [lookup_none_parent hwf htab hpar h]

theorem overloadTarget_of_not_fn {s : State} {tid : TableId} {sym : SymbolData}
    (h : sym.kind.isFn = false) : overloadTarget s tid sym = none := by
  unfold overloadTarget
  cases hk : sym.kind with
  | functionDecl nxt => rw [hk] at h; simp [SymbolKind.isFn] at h
  | var => rfl
  | field o i => rfl
  | type b => rfl

theorem reportErr_tables (s : State) (k : ErrKind) (pos : Nat) :
    (reportErr s k pos).tables = s.tables := rfl

theorem reportErr_syms (s : State) (k : ErrKind) (pos : Nat) :
    (reportErr s k pos).syms = s.syms := rfl

theorem reportErr_errors (s : State) (k : ErrKind) (pos : Nat) :
    (reportErr s k pos).errors = s.errors ++ [(k, pos)] := rfl

theorem setSym_tables (s : State) (sid : SymbolId) (d : SymbolData) :
    (setSym s sid d).tables = s.tables := rfl

theorem setSym_errors (s : State) (sid : SymbolId) (d : SymbolData) :
    (setSym s sid d).errors = s.errors := rfl

theorem setSym_syms_self {s : State} {sid : SymbolId} (d : SymbolData)
    (h : sid < s.syms.length) : (setSym s sid d).syms[sid]? = some d := by
  simp [setSym, List.getElem?_set_self h]

theorem setSym_syms_ne {s : State} {sid j : SymbolId} (d : SymbolData) (h : sid ≠ j) :
    (setSym s sid d).syms[j]? = s.syms[j]? := by
  simp [setSym, List.getElem?_set_ne h]

theorem setSlot_syms (s : State) (tid : TableId) (key : String) (v : SymbolId) :
    (setSlot s tid key v).syms = s.syms := by
  unfold setSlot
  cases s.tables[tid]? <;> rfl

theorem setSlot_errors (s : State) (tid : TableId) (key : String) (v : SymbolId) :
    (setSlot s tid key v).errors = s.errors := by
  unfold setSlot
  cases s.tables[tid]? <;> rfl

theorem setSlot_tables_self {s : State} {tid : TableId} {t : Table} (key : String) (v : SymbolId)
    (htab : s.tables[tid]? = some t) :
    (setSlot s tid key v).tables[tid]? =
      some { t with symbols := assocSet t.symbols key v } := by
  obtain ⟨hlen, -⟩ := List.getElem?_eq_some_iff.mp htab
  simp [setSlot, htab, List.getElem?_set_self hlen]

theorem setSlot_tables_ne {s : State} {tid j : TableId} (key : String) (v : SymbolId)
    (h : tid ≠ j) : (setSlot s tid key v).tables[j]? = s.tables[j]? := by
  unfold setSlot
  cases htab : s.tables[tid]? with
  | none => rfl
  | some t => simp [List.getElem?_set_ne h]

theorem lookupFuel_congr {s s2 : State} (h : s2.tables = s.tables) :
    ∀ (f : Nat) (tid : TableId) (key : String),
      lookupFuel s2 f tid key = lookupFuel s f tid key := by
  intro f
  induction f with
  | zero => intro tid key; rfl
  | succ n ih =>
    intro tid key
    cases htab : s.tables[tid]? with
    | none => simp only [lookupFuel, h, htab]
    | some t =>
      simp only [lookupFuel, h, htab]
      cases hloc : assocFind t.symbols key with
      | some v => simp only [hloc]
      | none =>
        simp only [hloc]
        cases hpar : t.parent with
        | none => simp only [hpar]
        | some p =>
          simp only [hpar]
          exact ih p key

theorem lookup_congr {s s2 : State} (h : s2.tables = s.tables) (tid : TableId) (key : String) :
    lookup s2 tid key = lookup s tid key :=
  lookupFuel_congr h (tid + 1) tid key

theorem wfB_congr {s s2 : State} (h : s2.tables = s.tables) : s2.wfB = s.wfB := by
  unfold State.wfB
  rw [h]

theorem wfB_set {s : State} (hwf : s.wfB = true) {i : Nat} {t t' : Table}
    (ht : s.tables[i]? = some t) (hp : t'.parent = t.parent) :
    ({ s with tables := s.tables.set i t' } : State).wfB = true := by
  unfold State.wfB at hwf ⊢
  rw [List.all_eq_true] at hwf ⊢
  intro x hx
  simp only [List.length_set] at hx
  have hx' := hwf x hx
  by_cases hxi : x = i
  · subst hxi
    obtain ⟨hlen, -⟩ := List.getElem?_eq_some_iff.mp ht
    rw [ht] at hx'
    simp only [List.getElem?_set_self hlen, hp]
    exact hx'
  · simp only [List.getElem?_set_ne (fun hh => hxi hh.symm)]
    exact hx'

theorem takeOwnershipOfString_syms (s : State) (tid : TableId) (str : String) :
    (takeOwnershipOfString s tid str).syms = s.syms := by
  unfold takeOwnershipOfString
  cases s.tables[tid]? <;> rfl

theorem takeOwnershipOfString_errors (s : State) (tid : TableId) (str : String) :
    (takeOwnershipOfString s tid str).errors = s.errors := by
  unfold takeOwnershipOfString
  cases s.tables[tid]? <;> rfl

theorem takeOwnershipOfString_tables_self {s : State} {tid : TableId} {t : Table} (str : String)
    (htab : s.tables[tid]? = some t) :
    (takeOwnershipOfString s tid str).tables[tid]? =
      some { t with ownedStrings := str :: t.ownedStrings } := by
  obtain ⟨hlen, -⟩ := List.getElem?_eq_some_iff.mp htab
  simp [takeOwnershipOfString, htab, List.getElem?_set_self hlen]

theorem takeOwnershipOfString_tables_ne {s : State} {tid j : TableId} (str : String)
    (h : tid ≠ j) : (takeOwnershipOfString s tid str).tables[j]? = s.tables[j]? := by
  unfold takeOwnershipOfString
  cases htab : s.tables[tid]? with
  | none => rfl
  | some t => simp [List.getElem?_set_ne h]

theorem getArrayName_ne_empty (baseName : String) (arraySize : Int) :
    getArrayName baseName arraySize ≠ "" := by
  intro h
  have hlen := congrArg String.length h
  simp only [getArrayName, String.length_append] at hlen
  rw [show String.length "[" = 1 by decide, show String.length "]" = 1 by decide,
    show String.length "" = 0 by decide] at hlen
  omega

theorem chainFromB_cons_ne (s : State) {fid i : SymbolId} (rest : List SymbolId)
    (h : fid ≠ i) : chainFromB s (some fid) (i :: rest) = false := by
  simp [chainFromB, h]

theorem chainFromB_cons_none {s : State} {fid : SymbolId} {rest : List SymbolId}
    (hsym : s.syms[fid]? = none) : chainFromB s (some fid) (fid :: rest) = false := by
  simp [chainFromB, hsym]

theorem chainFromB_cons_eq {s : State} {fid : SymbolId} {rest : List SymbolId}
    {sym : SymbolData} {nxt : Option SymbolId} (hsym : s.syms[fid]? = some sym)
    (hk : sym.kind = SymbolKind.functionDecl nxt) :
    chainFromB s (some fid) (fid :: rest) = chainFromB s nxt rest := by
  simp [chainFromB, hsym, hk]

theorem chainFromB_cons_notfn {s : State} {fid : SymbolId} {rest : List SymbolId}
    {sym : SymbolData} (hsym : s.syms[fid]? = some sym) (hk : sym.kind.isFn = false) :
    chainFromB s (some fid) (fid :: rest) = false := by
  cases hkk : sym.kind with
  | functionDecl nxt => rw [hkk] at hk; simp [SymbolKind.isFn] at hk
  | var => simp [chainFromB, hsym, hkk]
  | field o i => simp [chainFromB, hsym, hkk]
  | type b => simp [chainFromB, hsym, hkk]

theorem chainFromB_congr {s s2 : State} :
    ∀ (l : List SymbolId) (head : Option SymbolId),
      (∀ j ∈ l, s2.syms[j]? = s.syms[j]?) →
      chainFromB s2 head l = chainFromB s head l := by
  intro l
  induction l with
  | nil =>
    intro head hj
    cases head <;> rfl
  | cons i rest ih =>
    intro head hj
    cases head with
    | none => rfl
    | some fid =>
      by_cases hf : fid = i
      · subst hf
        have hsame : s2.syms[fid]? = s.syms[fid]? := hj fid (by simp)
        cases hv : s.syms[fid]? with
        | none => rw [chainFromB_cons_none (hsame.trans hv), chainFromB_cons_none hv]
        | some sym =>
          cases hk : sym.kind with
          | functionDecl nxt =>
            rw [chainFromB_cons_eq (hsame.trans hv) hk, chainFromB_cons_eq hv hk]
            exact ih nxt fun j hjr => hj j (List.mem_cons.mpr (Or.inr hjr))
          | var =>
            rw [chainFromB_cons_notfn (hsame.trans hv) (by rw [hk]; rfl),
              chainFromB_cons_notfn hv (by rw [hk]; rfl)]
          | field o k2 =>
            rw [chainFromB_cons_notfn (hsame.trans hv) (by rw [hk]; rfl),
              chainFromB_cons_notfn hv (by rw [hk]; rfl)]
          | type b =>
            rw [chainFromB_cons_notfn (hsame.trans hv) (by rw [hk]; rfl),
              chainFromB_cons_notfn hv (by rw [hk]; rfl)]
      · rw [chainFromB_cons_ne s2 rest hf, chainFromB_cons_ne s rest hf]

theorem chainFromB_bound {s : State} :
    ∀ (l : List SymbolId) (head : Option SymbolId),
      chainFromB s head l = true → ∀ i ∈ l, i < s.syms.length := by
  intro l
  induction l with
  | nil => intro head h i hi; cases hi
  | cons j rest ih =>
    intro head h i hi
    cases head with
    | none => simp [chainFromB] at h
    | some fid =>
      by_cases hf : fid = j
      · subst hf
        cases hsym : s.syms[fid]? with
        | none => rw [chainFromB_cons_none hsym] at h; cases h
        | some sym =>
          rcases List.mem_cons.mp hi with hij | hir
          · subst hij
            exact (List.getElem?_eq_some_iff.mp hsym).1
          · cases hk : sym.kind with
            | functionDecl nxt =>
              rw [chainFromB_cons_eq hsym hk] at h
              exact ih nxt h i hir
            | var => rw [chainFromB_cons_notfn hsym (by rw [hk]; rfl)] at h; cases h
            | field o k2 => rw [chainFromB_cons_notfn hsym (by rw [hk]; rfl)] at h; cases h
            | type b => rw [chainFromB_cons_notfn hsym (by rw [hk]; rfl)] at h; cases h
      · rw [chainFromB_cons_ne s rest hf] at h; cases h

theorem nodup_lt_length_le {l : List Nat} {n : Nat} (hnd : l.Nodup) (hb : ∀ i ∈ l, i < n) :
    l.length ≤ n := by
  have hsub : l.toFinset ⊆ Finset.range n := fun x hx =>
    Finset.mem_range.mpr (hb x (List.mem_toFinset.mp hx))
  calc l.length = l.toFinset.card := (List.toFinset_card_of_nodup hnd).symm
    _ ≤ (Finset.range n).card := Finset.card_le_card hsub
    _ = n := Finset.card_range n

theorem renameChain_spec (newName : String) :
    ∀ (l : List SymbolId) (s : State) (head : Option SymbolId) (fuel : Nat),
      chainFromB s head l = true → l.Nodup → l.length ≤ fuel →
      (renameChainFuel s fuel head newName).tables = s.tables ∧
      (renameChainFuel s fuel head newName).errors = s.errors ∧
      (renameChainFuel s fuel head newName).syms.length = s.syms.length ∧
      (∀ i ∈ l, ∃ old, s.syms[i]? = some old ∧
          (renameChainFuel s fuel head newName).syms[i]? =
            some { old with name := newName }) ∧
      (∀ j, j ∉ l → (renameChainFuel s fuel head newName).syms[j]? = s.syms[j]?) := by
  intro l
  induction l with
  | nil =>
    intro s head fuel hchain hnd hfuel
    cases head with
    | none =>
      cases fuel with
      | zero => exact ⟨rfl, rfl, rfl, fun i hi => absurd hi (List.not_mem_nil i), fun j _ => rfl⟩
      | succ f => exact ⟨rfl, rfl, rfl, fun i hi => absurd hi (List.not_mem_nil i), fun j _ => rfl⟩
    | some fid => simp [chainFromB] at hchain
  | cons i rest ih =>
    intro s head fuel hchain hnd hfuel
    cases head with
    | none => simp [chainFromB] at hchain
    | some fid =>
      by_cases hf : fid = i
      case neg => rw [chainFromB_cons_ne s rest hf] at hchain; cases hchain
      subst hf
      cases hsym : s.syms[fid]? with
      | none => rw [chainFromB_cons_none hsym] at hchain; cases hchain
      | some sym =>
        cases hk : sym.kind with
        | var => rw [chainFromB_cons_notfn hsym (by rw [hk]; rfl)] at hchain; cases hchain
        | field o k => rw [chainFromB_cons_notfn hsym (by rw [hk]; rfl)] at hchain; cases hchain
        | type b => rw [chainFromB_cons_notfn hsym (by rw [hk]; rfl)] at hchain; cases hchain
        | functionDecl nxt =>
          rw [chainFromB_cons_eq hsym hk] at hchain
          obtain ⟨f, rfl⟩ : ∃ f, fuel = f + 1 :=
            ⟨fuel - 1, by simp at hfuel; omega⟩
          have hlen : fid < s.syms.length := (List.getElem?_eq_some_iff.mp hsym).1
          have hstep : renameChainFuel s (f + 1) (some fid) newName =
              renameChainFuel (setSym s fid { sym with name := newName }) f nxt newName := by
            simp only [renameChainFuel, hsym, hk]
          have hndrest : rest.Nodup := (List.nodup_cons.mp hnd).2
          have hnotmem : fid ∉ rest := (List.nodup_cons.mp hnd).1
          have hchain2 : chainFromB (setSym s fid { sym with name := newName }) nxt rest = true := by
            rw [chainFromB_congr rest nxt
              (fun j hj => setSym_syms_ne _ (fun he => hnotmem (by rw [he]; exact hj)))]
            exact hchain
          have hfuel2 : rest.length ≤ f := by simp at hfuel; omega
          obtain ⟨iht, ihe, ihl, ihm, ihu⟩ :=
            ih (setSym s fid { sym with name := newName }) nxt f hchain2 hndrest hfuel2
          rw [hstep]
          refine ⟨iht.trans rfl, ihe.trans rfl, ?_, ?_, ?_⟩
          · rw [ihl]; simp [setSym]
          · intro j hj
            rcases List.mem_cons.mp hj with hji | hjr
            · subst hji
              refine ⟨sym, hsym, ?_⟩
              rw [ihu j hnotmem]
              exact setSym_syms_self _ hlen
            · obtain ⟨old, hold1, hold2⟩ := ihm j hjr
              refine ⟨old, ?_, hold2⟩
              rw [← hold1]
              exact (setSym_syms_ne _ (fun he => hnotmem (by rw [he]; exact hjr))).symm
          · intro j hj
            have hjne : fid ≠ j := fun he => hj (List.mem_cons.mpr (Or.inl he.symm))
            have hjr : j ∉ rest := fun hr => hj (List.mem_cons.mpr (Or.inr hr))
            rw [ihu j hjr]
            exact setSym_syms_ne _ hjne

theorem boundaryRejects_no_parent {s : State} {t : Table} {key : String}
    (h : t.parent = none) : boundaryRejects s t key = false := by
  unfold boundaryRejects
  simp [h]

theorem climbsB_congr_tables {s s2 : State} (h : s2.tables = s.tables) :
    ∀ (k : Nat) (tid anc : TableId), climbsB s2 k tid anc = climbsB s k tid anc := by
  intro k
  induction k with
  | zero => intro tid anc; rfl
  | succ n ih =>
    intro tid anc
    cases htab : s.tables[tid]? with
    | none => simp only [climbsB, h, htab]
    | some t =>
      simp only [climbsB, h, htab]
      cases hpar : t.parent with
      | none => simp only [hpar]
      | some p => simp only [hpar, ih p anc]

theorem climbsB_set {s : State} {i : Nat} {t t' : Table}
    (ht : s.tables[i]? = some t) (hp : t'.parent = t.parent)
    (hb : t'.atModuleBoundary = t.atModuleBoundary) :
    ∀ (k : Nat) (tid anc : TableId),
      climbsB { s with tables := s.tables.set i t' } k tid anc = climbsB s k tid anc := by
  intro k
  induction k with
  | zero => intro tid anc; rfl
  | succ n ih =>
    intro tid anc
    by_cases hti : tid = i
    · subst hti
      obtain ⟨hlen, -⟩ := List.getElem?_eq_some_iff.mp ht
      simp only [climbsB, List.getElem?_set_self hlen, ht, hp, hb]
      cases hpar : t.parent with
      | none => simp only [hpar]
      | some p => simp only [hpar, ih p anc]
    · have hne : i ≠ tid := fun he => hti he.symm
      cases htt : s.tables[tid]? with
      | none => simp only [climbsB, List.getElem?_set_ne hne, htt]
      | some tt =>
        simp only [climbsB, List.getElem?_set_ne hne, htt]
        cases hpar : tt.parent with
        | none => simp only [hpar]
        | some p => simp only [hpar, ih p anc]

theorem addArrayDimensionFuel_mono {s : State} (hwf : s.wfB = true) (tyId : SymbolId) (n : Int) :
    ∀ tid f1 f2, tid < f1 → tid < f2 →
      addArrayDimensionFuel s f1 tid tyId n = addArrayDimensionFuel s f2 tid tyId n := by
  intro tid
  induction tid using Nat.strong_induction_on with
  | _ tid ih =>
    intro f1 f2 h1 h2
    obtain ⟨a, rfl⟩ : ∃ a, f1 = a + 1 := ⟨f1 - 1, by omega⟩
    obtain ⟨b, rfl⟩ : ∃ b, f2 = b + 1 := ⟨f2 - 1, by omega⟩
    by_cases hn : n = 0
    · simp only [addArrayDimensionFuel, if_pos hn]
    · simp only [addArrayDimensionFuel, if_neg hn]
      cases htab : s.tables[tid]? with
      | none => simp only [htab]
      | some t =>
        cases hty : s.syms[tyId]? with
        | none => simp only [htab, hty]
        | some ty =>
          simp only [htab, hty]
          cases hpar : t.parent with
          | none => simp only [hpar]
          | some p =>
            cases hbi : ty.inBuiltinTypes && !t.atModuleBoundary with
            | false => simp only [hpar, hbi]
            | true =>
              simp only [hpar, hbi]
              have hp : p < tid := wfB_parent_lt hwf htab hpar
              exact ih p hp a b (Nat.lt_of_lt_of_le hp (Nat.lt_succ_iff.mp h1))
                (Nat.lt_of_lt_of_le hp (Nat.lt_succ_iff.mp h2))

theorem addArrayDimension_climb {s : State} (hwf : s.wfB = true) {tyId : SymbolId}
    {ty : SymbolData} (hty : s.syms[tyId]? = some ty) (hbi : ty.inBuiltinTypes = true)
    {n : Int} (hn : n ≠ 0) :
    ∀ (k : Nat) (tid anc : TableId), climbsB s k tid anc = true →
      addArrayDimension s tid tyId n = addArrayDimension s anc tyId n := by
  intro k
  induction k with
  | zero =>
    intro tid anc hc
    have he : tid = anc := by simpa [climbsB] using hc
    rw [he]
  | succ m ih =>
    intro tid anc hc
    cases htab : s.tables[tid]? with
    | none => simp only [climbsB, htab] at hc; cases hc
    | some t =>
      simp only [climbsB, htab] at hc
      cases hpar : t.parent with
      | none => rw [hpar] at hc; simp at hc
      | some p =>
        rw [hpar] at hc
        simp only [Bool.and_eq_true] at hc
        obtain ⟨hbnd, hcp⟩ := hc
        have hbnd2 : t.atModuleBoundary = false := by simpa using hbnd
        have hstep : addArrayDimension s tid tyId n = addArrayDimension s p tyId n := by
          show addArrayDimensionFuel s (tid + 1) tid tyId n = _
          simp only [addArrayDimensionFuel, if_neg hn, htab, hty, hpar, hbi, hbnd2,
            Bool.not_false, Bool.and_self]
          exact addArrayDimensionFuel_mono hwf tyId n p tid (p + 1)
            (wfB_parent_lt hwf htab hpar) (Nat.lt_succ_self p)
        rw [hstep]
        exact ih p anc hcp

/-! Claim theorems. -/

/-- C9: for every state, table and type, `addArrayDimension` with size 0
returns the base type unchanged and leaves the whole state — local mappings,
owned-string arenas, symbol heap, errors — untouched (no allocation). -/
theorem addArrayDimension_zero_identity (s : State) (tid : TableId) (tyId : SymbolId) :
    addArrayDimension s tid tyId 0 = (s, tyId) := by
  show addArrayDimensionFuel s (tid + 1) tid tyId 0 = (s, tyId)
  simp [addArrayDimensionFuel]

/-- C10: `instantiateSymbolRef` leaves the scope tree (every table's mapping,
arena, parent link and flags) and the symbol heap unchanged — only the error
sink can grow.  The query operations `find`, `lookup`, `isType`,
`isBuiltinType`, `findBuiltinSymbol` and `wouldShadowSymbolsFrom` are
embedded as pure functions that return no state at all, mirroring their
`const` signatures in the source, so they cannot modify any table either. -/
theorem queries_preserve_state (s : State) (tid : TableId) (name : String) (pos : Nat) :
    (instantiateSymbolRef s tid name pos).1.tables = s.tables ∧
    (instantiateSymbolRef s tid name pos).1.syms = s.syms := by
  cases hfind : find s tid name with
  | none => simp [instantiateSymbolRef, hfind, reportErr]
  | some rid =>
    cases hsym : s.syms[rid]? with
    | none => simp [instantiateSymbolRef, hfind, hsym]
    | some r =>
      cases hk : r.kind with
      | functionDecl nxt => simp [instantiateSymbolRef, hfind, hsym, hk]
      | var => simp [instantiateSymbolRef, hfind, hsym, hk]
      | field o i => simp [instantiateSymbolRef, hfind, hsym, hk]
      | type b => simp [instantiateSymbolRef, hfind, hsym, hk]

/-- C8: when no table in the scope chain resolves the name,
`instantiateSymbolRef` reports exactly one unknown-identifier error at the
given position and returns a failure result (no node), leaving the tree and
heap unchanged so the caller can keep gathering diagnostics. -/
theorem instantiateSymbolRef_unknown (s : State) (tid : TableId) (name : String) (pos : Nat)
    (h : find s tid name = none) :
    instantiateSymbolRef s tid name pos =
      (reportErr s (ErrKind.unknownIdentifier name) pos, none) ∧
    (instantiateSymbolRef s tid name pos).1.errors =
      s.errors ++ [(ErrKind.unknownIdentifier name, pos)] := by
  constructor
  · simp only [instantiateSymbolRef, h]
  · simp only [instantiateSymbolRef, h, reportErr]

/-- Witness for C8 at a concrete empty table. -/
theorem instantiateSymbolRef_unknown_witness :
    instantiateSymbolRef exC8 0 "x" 4 =
      (reportErr exC8 (ErrKind.unknownIdentifier "x") 4, none) ∧
    (instantiateSymbolRef exC8 0 "x" 4).1.errors =
      exC8.errors ++ [(ErrKind.unknownIdentifier "x", 4)] :=
  instantiateSymbolRef_unknown exC8 0 "x" 4 (by decide)

/-- C7 (amended): `addWithoutOwnership` of an empty-named symbol is a no-op
— nothing is registered, no error is reported — but this does NOT hold for
every registration path: `injectWithoutOwnership` registers unconditionally,
empty names included (see the counterexample). -/
theorem addWithoutOwnership_empty_noop (s : State) (tid : TableId) (symId : SymbolId)
    {sym : SymbolData} (hsym : s.syms[symId]? = some sym) (h : sym.name = "") :
    addWithoutOwnership s tid symId = s := by
  cases htab : s.tables[tid]? with
  | none => simp only [addWithoutOwnership, hsym, htab]
  | some t => simp [addWithoutOwnership, hsym, htab, h]

/-- Witness for the amended C7 at a concrete anonymous symbol. -/
theorem addWithoutOwnership_empty_noop_witness :
    addWithoutOwnership exC7 0 0 = exC7 :=
  addWithoutOwnership_empty_noop exC7 0 0 rfl rfl

/-- C7 is false as stated: `injectWithoutOwnership` of the empty-named
symbol 0 does register it under the empty name (the table's local mapping
gains the entry and lookup of the empty name returns the symbol). -/
theorem inject_registers_empty_name_cex :
    (exC7.syms[0]?).map SymbolData.name = some "" ∧
    (injectWithoutOwnership exC7 0 0).tables = [⟨none, false, false, [("", 0)], []⟩] ∧
    find (injectWithoutOwnership exC7 0 0) 0 "" = some 0 := by
  refine ⟨rfl, rfl, rfl⟩

/-- C1: at a module-boundary table whose parent chain already resolves `N`,
adding a non-function symbol named `N` is rejected: the local mapping (and
the whole tree and heap) is unchanged, `find N` still resolves to the
ancestor's symbol, and exactly one duplicate-symbol error carrying the new
symbol's name and position is reported. -/
theorem moduleBoundary_duplicate_rejected (s : State) (tid p : TableId)
    (symId ancId : SymbolId) (N : String) {t : Table} {sym : SymbolData}
    (hwf : s.wfB = true)
    (htab : s.tables[tid]? = some t)
    (hbnd : t.atModuleBoundary = true)
    (hpar : t.parent = some p)
    (hanc : lookup s p N = some ancId)
    (hsym : s.syms[symId]? = some sym) (hn : sym.name = N) (hne : N ≠ "")
    (hnf : sym.kind.isFn = false)
    (hloc : assocFind t.symbols N = none) :
    addWithoutOwnership s tid symId = reportErr s (ErrKind.duplicateSymbol N) sym.pos ∧
    (addWithoutOwnership s tid symId).errors =
      s.errors ++ [(ErrKind.duplicateSymbol N, sym.pos)] ∧
    find (addWithoutOwnership s tid symId) tid N = some ancId := by
  have hov : overloadTarget s tid sym = none := overloadTarget_of_not_fn hnf
  have hbr : boundaryRejects s t N = true := by
    unfold boundaryRejects
    simp only [hbnd, hpar, hanc]
    rfl
  have heq : addWithoutOwnership s tid symId =
      reportErr s (ErrKind.duplicateSymbol N) sym.pos := by
    simp [addWithoutOwnership, hsym, htab, hn, hne, hov, hbr]
  refine ⟨heq, by rw [heq]; rfl, ?_⟩
  rw [heq]
  have hteq : (reportErr s (ErrKind.duplicateSymbol N) sym.pos).tables = s.tables := rfl
  have hwf2 : (reportErr s (ErrKind.duplicateSymbol N) sym.pos).wfB = true := by
    rw [wfB_congr hteq]; exact hwf
  have htab2 : (reportErr s (ErrKind.duplicateSymbol N) sym.pos).tables[tid]? = some t := by
    rw [hteq]; exact htab
  have hu := lookup_unfold hwf2 htab2 N
  simp only [hloc, hpar] at hu
  show lookup (reportErr s (ErrKind.duplicateSymbol N) sym.pos) tid N = some ancId
  rw [hu, lookup_congr hteq p N, hanc]

/-- Witness for C1 at the concrete builtin-root / module-boundary pair. -/
theorem moduleBoundary_duplicate_rejected_witness :
    addWithoutOwnership exC1 1 1 = reportErr exC1 (ErrKind.duplicateSymbol "n") 7 ∧
    (addWithoutOwnership exC1 1 1).errors =
      exC1.errors ++ [(ErrKind.duplicateSymbol "n", 7)] ∧
    find (addWithoutOwnership exC1 1 1) 1 "n" = some 0 :=
  moduleBoundary_duplicate_rejected exC1 1 0 1 0 "n" (by decide) rfl rfl rfl rfl rfl rfl
    (by decide) rfl rfl

/-- C3: inserting a non-function symbol over an occupied local slot, when
the module-boundary rejection does not apply, still installs the new symbol
(`find` resolves to it afterwards — last declaration wins) and reports
exactly one duplicate-symbol error attributed to the new symbol's
position. -/
theorem local_duplicate_replaces_and_reports (s : State) (tid : TableId)
    (symId oldId : SymbolId) (N : String) {t : Table} {sym : SymbolData}
    (htab : s.tables[tid]? = some t)
    (hsym : s.syms[symId]? = some sym) (hn : sym.name = N) (hne : N ≠ "")
    (hnf : sym.kind.isFn = false)
    (hnorej : boundaryRejects s t N = false)
    (hloc : assocFind t.symbols N = some oldId) :
    addWithoutOwnership s tid symId =
      reportErr (setSlot s tid N symId) (ErrKind.duplicateSymbol (symName s oldId)) sym.pos ∧
    find (addWithoutOwnership s tid symId) tid N = some symId ∧
    (addWithoutOwnership s tid symId).errors =
      s.errors ++ [(ErrKind.duplicateSymbol (symName s oldId), sym.pos)] := by
  have hov : overloadTarget s tid sym = none := overloadTarget_of_not_fn hnf
  have heq : addWithoutOwnership s tid symId =
      reportErr (setSlot s tid N symId) (ErrKind.duplicateSymbol (symName s oldId)) sym.pos := by
    simp [addWithoutOwnership, hsym, htab, hn, hne, hov, hnorej, hloc]
  refine ⟨heq, ?_, ?_⟩
  · rw [heq]
    exact lookup_local
      (by rw [reportErr_tables]; exact setSlot_tables_self N symId htab)
      (assocFind_assocSet_self t.symbols N symId)
  · rw [heq, reportErr_errors, setSlot_errors]

/-- Witness for C3 at the concrete occupied slot. -/
theorem local_duplicate_replaces_and_reports_witness :
    addWithoutOwnership exC3 0 1 =
      reportErr (setSlot exC3 0 "v" 1) (ErrKind.duplicateSymbol (symName exC3 0)) 9 ∧
    find (addWithoutOwnership exC3 0 1) 0 "v" = some 1 ∧
    (addWithoutOwnership exC3 0 1).errors =
      exC3.errors ++ [(ErrKind.duplicateSymbol (symName exC3 0), 9)] :=
  local_duplicate_replaces_and_reports exC3 0 1 0 "v" rfl rfl rfl (by decide) rfl rfl rfl

/-- C6 (amended): when a function named `N` is inserted, the code looks `N`
up with the full scope-chain `lookup`; whenever that resolves to a function
declaration — including one registered only in an ancestor table — the new
symbol's `nextOverload` is linked to it and the new symbol becomes this
table's slot head, with no error.  Overload chains can therefore span
scopes. -/
theorem overload_links_via_scope_lookup (s : State) (tid : TableId) (symId eid : SymbolId)
    (N : String) {t : Table} {sym E : SymbolData} {nx en : Option SymbolId}
    (htab : s.tables[tid]? = some t)
    (hsym : s.syms[symId]? = some sym) (hk : sym.kind = SymbolKind.functionDecl nx)
    (hn : sym.name = N) (hne : N ≠ "")
    (hlk : lookup s tid N = some eid)
    (hE : s.syms[eid]? = some E) (hEk : E.kind = SymbolKind.functionDecl en) :
    addWithoutOwnership s tid symId =
      setSlot (setSym s symId { sym with kind := SymbolKind.functionDecl (some eid) })
        tid N symId ∧
    find (addWithoutOwnership s tid symId) tid N = some symId ∧
    (addWithoutOwnership s tid symId).syms[symId]? =
      some { sym with kind := SymbolKind.functionDecl (some eid) } ∧
    (addWithoutOwnership s tid symId).errors = s.errors := by
  have hov : overloadTarget s tid sym = some eid := by
    simp only [overloadTarget, hk, hn, hlk, hE, hEk]
  have heq : addWithoutOwnership s tid symId =
      setSlot (setSym s symId { sym with kind := SymbolKind.functionDecl (some eid) })
        tid N symId := by
    simp [addWithoutOwnership, hsym, htab, hn, hne, hov]
  have hst : (setSym s symId
      { sym with kind := SymbolKind.functionDecl (some eid) }).tables[tid]? = some t := by
    rw [setSym_tables]; exact htab
  refine ⟨heq, ?_, ?_, ?_⟩
  · rw [heq]
    exact lookup_local (setSlot_tables_self N symId hst)
      (assocFind_assocSet_self t.symbols N symId)
  · rw [heq, setSlot_syms]
    exact setSym_syms_self _ (List.getElem?_eq_some_iff.mp hsym).1
  · rw [heq, setSlot_errors, setSym_errors]

/-- Witness for the amended C6: the existing overload resolves only through
the parent table, and the link is made to it. -/
theorem overload_links_via_scope_lookup_witness :
    addWithoutOwnership exC6 1 1 =
      setSlot (setSym exC6 1 ⟨"n", 1, SymbolKind.functionDecl (some 0)⟩) 1 "n" 1 ∧
    find (addWithoutOwnership exC6 1 1) 1 "n" = some 1 ∧
    (addWithoutOwnership exC6 1 1).syms[1]? =
      some { name := "n", pos := 1, kind := SymbolKind.functionDecl (some 0) } ∧
    (addWithoutOwnership exC6 1 1).errors = exC6.errors :=
  overload_links_via_scope_lookup exC6 1 1 0 "n" rfl rfl rfl rfl (by decide) rfl rfl rfl

/-- C6 is false as stated: inserting function 1 named `n` into the child
table (whose local mapping is empty) links its `nextOverload` to function 0,
which is registered only in the ancestor table, so the overload chain spans
scopes. -/
theorem overload_chain_spans_scopes_cex :
    exC6.tables[1]? = some ⟨some 0, false, false, [], []⟩ ∧
    exC6.tables[0]? = some ⟨none, true, false, [("n", 0)], []⟩ ∧
    (addWithoutOwnership exC6 1 1).syms[1]? =
      some { name := "n", pos := 1, kind := SymbolKind.functionDecl (some 0) } := by
  refine ⟨rfl, rfl, by decide⟩

theorem insert_second_overload (u : State) (tid : TableId) (f1 f2 : SymbolId) (N : String)
    {tu : Table} {F1u F2 : SymbolData} {n1 n2 : Option SymbolId}
    (htab : u.tables[tid]? = some tu)
    (h1 : u.syms[f1]? = some F1u) (hk1 : F1u.kind = SymbolKind.functionDecl n1)
    (h2 : u.syms[f2]? = some F2) (hk2 : F2.kind = SymbolKind.functionDecl n2)
    (hn2 : F2.name = N) (hne : N ≠ "")
    (hlk : lookup u tid N = some f1) :
    addWithoutOwnership u tid f2 =
      setSlot (setSym u f2 { F2 with kind := SymbolKind.functionDecl (some f1) })
        tid N f2 := by
  have hov : overloadTarget u tid F2 = some f1 := by
    simp only [overloadTarget, hk2, hn2, hlk, h1, hk1]
  simp [addWithoutOwnership, h2, htab, hn2, hne, hov]

/-- C2 (amended): inserting function `f1` named `N` and then function `f2`
named `N`, provided the scope chain does not already resolve `N` to a
non-function symbol (nor to `f1`/`f2` themselves), leaves `find N` at `f2`,
links `f2`'s `nextOverload` to `f1` (the new declaration becomes the chain
head, the previous head its next overload), and reports no duplicate-symbol
error.  The original claim quantifies over every table; it fails when `N`
already resolves to a non-function (see the counterexample). -/
theorem overload_insertion_spec (s : State) (tid : TableId) (f1 f2 : SymbolId) (N : String)
    {t : Table} {F1 F2 : SymbolData} {nf1 nf2 : Option SymbolId}
    (hwf : s.wfB = true)
    (htab : s.tables[tid]? = some t)
    (h1 : s.syms[f1]? = some F1) (hk1 : F1.kind = SymbolKind.functionDecl nf1)
    (hn1 : F1.name = N)
    (h2 : s.syms[f2]? = some F2) (hk2 : F2.kind = SymbolKind.functionDecl nf2)
    (hn2 : F2.name = N)
    (hne : N ≠ "") (h12 : f1 ≠ f2)
    (hres : lookup s tid N = none ∨
      ∃ g G gn, lookup s tid N = some g ∧ s.syms[g]? = some G ∧
        G.kind = SymbolKind.functionDecl gn ∧ g ≠ f1 ∧ g ≠ f2) :
    find (addWithoutOwnership (addWithoutOwnership s tid f1) tid f2) tid N = some f2 ∧
    (addWithoutOwnership (addWithoutOwnership s tid f1) tid f2).syms[f2]? =
      some { F2 with kind := SymbolKind.functionDecl (some f1) } ∧
    (addWithoutOwnership (addWithoutOwnership s tid f1) tid f2).errors = s.errors := by
  rcases hres with hlk | ⟨g, G, gn, hlk, hG, hGk, hgf1, hgf2⟩
  · -- first insertion into a chain that does not resolve N at all
    have hov1 : overloadTarget s tid F1 = none := by
      simp only [overloadTarget, hk1, hn1, hlk]
    have hbr1 : boundaryRejects s t N = false := boundaryRejects_of_lookup_none hwf htab hlk
    have hloc1 : assocFind t.symbols N = none := lookup_none_local htab hlk
    have hs1 : addWithoutOwnership s tid f1 = setSlot s tid N f1 := by
      simp [addWithoutOwnership, h1, htab, hn1, hne, hov1, hbr1, hloc1]
    have ht1 : (setSlot s tid N f1).tables[tid]? =
        some { t with symbols := assocSet t.symbols N f1 } :=
      setSlot_tables_self N f1 htab
    have h2s : (setSlot s tid N f1).syms[f2]? = some F2 := by
      rw [setSlot_syms]; exact h2
    have h1s : (setSlot s tid N f1).syms[f1]? = some F1 := by
      rw [setSlot_syms]; exact h1
    have hlk2 : lookup (setSlot s tid N f1) tid N = some f1 :=
      lookup_local ht1 (assocFind_assocSet_self t.symbols N f1)
    have heq2 := insert_second_overload (setSlot s tid N f1) tid f1 f2 N ht1 h1s hk1 h2s
      hk2 hn2 hne hlk2
    have htbl2 : (setSym (setSlot s tid N f1) f2
        { F2 with kind := SymbolKind.functionDecl (some f1) }).tables[tid]? =
        some { t with symbols := assocSet t.symbols N f1 } := by
      rw [setSym_tables]; exact ht1
    have hfinal := setSlot_tables_self N f2 htbl2
    rw [hs1, heq2]
    refine ⟨?_, ?_, ?_⟩
    · exact lookup_local hfinal (assocFind_assocSet_self _ N f2)
    · rw [setSlot_syms]
      exact setSym_syms_self _ (List.getElem?_eq_some_iff.mp h2s).1
    · rw [setSlot_errors, setSym_errors, setSlot_errors]
  · -- first insertion over an existing function overload g
    have hov1 : overloadTarget s tid F1 = some g := by
      simp only [overloadTarget, hk1, hn1, hlk, hG, hGk]
    have hs1 : addWithoutOwnership s tid f1 =
        setSlot (setSym s f1 { F1 with kind := SymbolKind.functionDecl (some g) })
          tid N f1 := by
      simp [addWithoutOwnership, h1, htab, hn1, hne, hov1]
    have hbt : (setSym s f1
        { F1 with kind := SymbolKind.functionDecl (some g) }).tables[tid]? = some t := by
      rw [setSym_tables]; exact htab
    have ht1 : (setSlot (setSym s f1 { F1 with kind := SymbolKind.functionDecl (some g) })
        tid N f1).tables[tid]? = some { t with symbols := assocSet t.symbols N f1 } :=
      setSlot_tables_self N f1 hbt
    have h2s : (setSlot (setSym s f1 { F1 with kind := SymbolKind.functionDecl (some g) })
        tid N f1).syms[f2]? = some F2 := by
      rw [setSlot_syms, setSym_syms_ne _ h12]; exact h2
    have h1s : (setSlot (setSym s f1 { F1 with kind := SymbolKind.functionDecl (some g) })
        tid N f1).syms[f1]? = some { F1 with kind := SymbolKind.functionDecl (some g) } := by
      rw [setSlot_syms]
      exact setSym_syms_self _ (List.getElem?_eq_some_iff.mp h1).1
    have hlk2 : lookup (setSlot (setSym s f1
        { F1 with kind := SymbolKind.functionDecl (some g) }) tid N f1) tid N = some f1 :=
      lookup_local ht1 (assocFind_assocSet_self t.symbols N f1)
    have heq2 := insert_second_overload _ tid f1 f2 N ht1 h1s rfl h2s hk2 hn2 hne hlk2
    have htbl2 : (setSym (setSlot (setSym s f1
        { F1 with kind := SymbolKind.functionDecl (some g) }) tid N f1) f2
        { F2 with kind := SymbolKind.functionDecl (some f1) }).tables[tid]? =
        some { t with symbols := assocSet t.symbols N f1 } := by
      rw [setSym_tables]; exact ht1
    have hfinal := setSlot_tables_self N f2 htbl2
    rw [hs1, heq2]
    refine ⟨?_, ?_, ?_⟩
    · exact lookup_local hfinal (assocFind_assocSet_self _ N f2)
    · rw [setSlot_syms]
      exact setSym_syms_self _ (List.getElem?_eq_some_iff.mp h2s).1
    · rw [setSlot_errors, setSym_errors, setSlot_errors, setSym_errors]

/-- Witness for the amended C2 at a concrete fresh name. -/
theorem overload_insertion_spec_witness :
    find (addWithoutOwnership (addWithoutOwnership exC2 0 0) 0 1) 0 "f" = some 1 ∧
    (addWithoutOwnership (addWithoutOwnership exC2 0 0) 0 1).syms[1]? =
      some { name := "f", pos := 2, kind := SymbolKind.functionDecl (some 0) } ∧
    (addWithoutOwnership (addWithoutOwnership exC2 0 0) 0 1).errors = exC2.errors :=
  overload_insertion_spec exC2 0 0 1 "f" (by decide) rfl rfl rfl rfl rfl rfl rfl
    (by decide) (by decide) (Or.inl rfl)

/-- C2 is false as universally stated: at a module-boundary table whose
parent binds `n` to a variable, both function insertions are rejected with
duplicate-symbol errors and `find` still resolves to the variable, not to
the second function. -/
theorem overload_claim_cex :
    find (addWithoutOwnership (addWithoutOwnership exC2x 1 1) 1 2) 1 "n" ≠ some 2 ∧
    (addWithoutOwnership (addWithoutOwnership exC2x 1 1) 1 2).errors ≠ [] := by
  refine ⟨by decide, by decide⟩

/-- C5 (amended): renaming a registered function renames every member of its
overload chain to the new name and re-registers the head under the new name,
so `find newName` resolves to the full (renamed) chain head with no error
reported; but the old mapping entry is NOT removed, so `find oldName` still
resolves to the same (now renamed) head — the original claim's
"`find(oldName)` no longer resolves to it" is false (see counterexample). -/
theorem renameSymbol_spec (s : State) (tid : TableId) (fid : SymbolId) (rest : List SymbolId)
    (oldName newName : String) {t : Table} {F : SymbolData} {nxt : Option SymbolId}
    (hwf : s.wfB = true)
    (htab : s.tables[tid]? = some t)
    (hchain : chainFromB s (some fid) (fid :: rest) = true)
    (hnd : (fid :: rest).Nodup)
    (hF : s.syms[fid]? = some F) (hFk : F.kind = SymbolKind.functionDecl nxt)
    (hFn : F.name = oldName)
    (hslot : assocFind t.symbols oldName = some fid)
    (hnew : lookup s tid newName = none)
    (hne : newName ≠ "") (hdiff : oldName ≠ newName) :
    (∀ i ∈ fid :: rest, ∃ old, s.syms[i]? = some old ∧
        (renameSymbol s tid fid newName).syms[i]? = some { old with name := newName }) ∧
    find (renameSymbol s tid fid newName) tid newName = some fid ∧
    find (renameSymbol s tid fid newName) tid oldName = some fid ∧
    (renameSymbol s tid fid newName).errors = s.errors := by
  have hbound := chainFromB_bound (fid :: rest) (some fid) hchain
  have hfuel : (fid :: rest).length ≤ s.syms.length + 1 :=
    le_trans (nodup_lt_length_le hnd hbound) (Nat.le_succ _)
  obtain ⟨ht', he', hl', hm', hu'⟩ :=
    renameChain_spec newName (fid :: rest) s (some fid) (s.syms.length + 1) hchain hnd hfuel
  have hrs : renameSymbol s tid fid newName =
      addWithoutOwnership (renameChainFuel s (s.syms.length + 1) (some fid) newName)
        tid fid := by
    simp only [renameSymbol, hF, hFk]
  obtain ⟨old, hold1, hold2⟩ := hm' fid (List.mem_cons_self fid rest)
  have holdF : old = F := Option.some.inj (hold1.symm.trans hF)
  subst holdF
  have htab2 : (renameChainFuel s (s.syms.length + 1) (some fid) newName).tables[tid]? =
      some t := by rw [ht']; exact htab
  have hwf2 : (renameChainFuel s (s.syms.length + 1) (some fid) newName).wfB = true := by
    rw [wfB_congr ht']; exact hwf
  have hlk2 : lookup (renameChainFuel s (s.syms.length + 1) (some fid) newName) tid
      newName = none := by
    rw [lookup_congr ht']; exact hnew
  have hov : overloadTarget (renameChainFuel s (s.syms.length + 1) (some fid) newName) tid
      { old with name := newName } = none := by
    simp only [overloadTarget, hFk, hlk2]
  have hbr := boundaryRejects_of_lookup_none hwf2 htab2 hlk2
  have hloc2 : assocFind t.symbols newName = none := lookup_none_local htab2 hlk2
  have hadd : addWithoutOwnership (renameChainFuel s (s.syms.length + 1) (some fid) newName)
      tid fid =
      setSlot (renameChainFuel s (s.syms.length + 1) (some fid) newName) tid newName fid := by
    simp [addWithoutOwnership, hold2, htab2, hne, hov, hbr, hloc2]
  refine ⟨?_, ?_, ?_, ?_⟩
  · intro i hi
    obtain ⟨o, ho1, ho2⟩ := hm' i hi
    exact ⟨o, ho1, by rw [hrs, hadd, setSlot_syms]; exact ho2⟩
  · rw [hrs, hadd]
    exact lookup_local (setSlot_tables_self newName fid htab2)
      (assocFind_assocSet_self t.symbols newName fid)
  · rw [hrs, hadd]
    refine lookup_local (setSlot_tables_self newName fid htab2) ?_
    rw [assocFind_assocSet_ne t.symbols fid hdiff]
    exact hslot
  · rw [hrs, hadd, setSlot_errors, he']

/-- Witness for the amended C5: the two-element chain 0 → 1 named `a` is
renamed to `b`; both members carry the new name, `find "b"` resolves to the
head, and `find "a"` still resolves to it as well. -/
theorem renameSymbol_spec_witness :
    (∀ i ∈ 0 :: [1], ∃ old, exC5.syms[i]? = some old ∧
        (renameSymbol exC5 0 0 "b").syms[i]? = some { old with name := "b" }) ∧
    find (renameSymbol exC5 0 0 "b") 0 "b" = some 0 ∧
    find (renameSymbol exC5 0 0 "b") 0 "a" = some 0 ∧
    (renameSymbol exC5 0 0 "b").errors = exC5.errors :=
  renameSymbol_spec exC5 0 0 [1] "a" "b" (by decide) rfl (by decide) (by decide) rfl rfl
    rfl rfl rfl (by decide) (by decide)

/-- C5 is false as stated: after renaming function 0 from `a` to `b`, the
stale mapping entry under `a` remains, so `find "a"` still resolves to the
(renamed) symbol 0 and its chain. -/
theorem renameSymbol_oldName_still_resolves_cex :
    find (renameSymbol exC5 0 0 "b") 0 "a" = some 0 ∧
    (renameSymbol exC5 0 0 "b").syms[0]? =
      some { name := "b", pos := 0, kind := SymbolKind.functionDecl (some 1) } := by
  refine ⟨by decide, by decide⟩

/-- C4: for a builtin base type and nonzero size, two `addArrayDimension`
calls issued from two scopes that both delegate (no module boundary, parents
present) up to the same parentless ancestor return the identical array-type
instance: the first call installs the cache entry at the ancestor and the
second call is a pure cache hit that allocates nothing and leaves the state
untouched. -/
theorem addArrayDimension_cache_hit (s : State) (k1 k2 : Nat) (a1 a2 anc : TableId)
    (tyId : SymbolId) (n : Int) {ancT : Table} {ty : SymbolData}
    (hwf : s.wfB = true)
    (hc1 : climbsB s k1 a1 anc = true) (hc2 : climbsB s k2 a2 anc = true)
    (hanc : s.tables[anc]? = some ancT) (hroot : ancT.parent = none)
    (hty : s.syms[tyId]? = some ty) (hbi : ty.inBuiltinTypes = true)
    (hn : n ≠ 0) :
    addArrayDimension (addArrayDimension s a1 tyId n).1 a2 tyId n =
      addArrayDimension s a1 tyId n := by
  have hred1 := addArrayDimension_climb hwf hty hbi hn k1 a1 anc hc1
  cases hfind : find s anc (getArrayName ty.name n) with
  | some e =>
    have hcall1 : addArrayDimension s anc tyId n = (s, e) := by
      show addArrayDimensionFuel s (anc + 1) anc tyId n = (s, e)
      simp only [addArrayDimensionFuel, if_neg hn, hanc, hty, hroot, hfind]
    rw [hred1, hcall1]
    show addArrayDimension s a2 tyId n = (s, e)
    rw [addArrayDimension_climb hwf hty hbi hn k2 a2 anc hc2]
    exact hcall1
  | none =>
    have hlocA : assocFind ancT.symbols (getArrayName ty.name n) = none :=
      lookup_none_local hanc hfind
    set T1 := { ancT with
      ownedStrings := getArrayName ty.name n :: ancT.ownedStrings } with hT1
    set u2 := takeOwnershipOfString s anc (getArrayName ty.name n) with hu2
    set mk2 := MakeArrayType (getArrayName ty.name n) ty with hmk
    set u3 : State := { u2 with syms := u2.syms ++ [mk2] } with hu3
    set newId := u2.syms.length with hnewId
    have hu2syms : u2.syms = s.syms := by
      rw [hu2]; exact takeOwnershipOfString_syms s anc _
    have hu2eq : u2 = { s with tables := s.tables.set anc T1 } := by
      rw [hu2, hT1]; simp [takeOwnershipOfString, hanc]
    have hu2tab : u2.tables[anc]? = some T1 := by
      rw [hu2, hT1]; exact takeOwnershipOfString_tables_self _ hanc
    have htu3 : u3.tables = u2.tables := by rw [hu3]
    have hu3tab : u3.tables[anc]? = some T1 := by rw [htu3]; exact hu2tab
    have hu3sym : u3.syms[newId]? = some mk2 := by
      rw [hu3, hnewId]
      exact List.getElem?_concat_length u2.syms mk2
    have hovmk : overloadTarget u3 anc mk2 = none := by
      apply overloadTarget_of_not_fn
      rw [hmk]
      rfl
    have hbrmk : boundaryRejects u3 T1 (getArrayName ty.name n) = false := by
      apply boundaryRejects_no_parent
      rw [hT1]
      exact hroot
    have hkey : mk2.name = getArrayName ty.name n := by
      rw [hmk]
      rfl
    have hnem : ¬ (getArrayName ty.name n = "") := getArrayName_ne_empty ty.name n
    have hlocA2 : assocFind T1.symbols (getArrayName ty.name n) = none := by
      rw [hT1]
      exact hlocA
    have hadd : addWithoutOwnership u3 anc newId =
        setSlot u3 anc (getArrayName ty.name n) newId := by
      simp only [addWithoutOwnership, hu3sym, hu3tab, hkey]
      rw [if_neg hnem]
      simp only [hovmk]
      rw [if_neg (show ¬ (boundaryRejects u3 T1 (getArrayName ty.name n) = true) by
        simp [hbrmk])]
      simp only [hlocA2]
    have hcall1 : addArrayDimension s anc tyId n =
        (setSlot u3 anc (getArrayName ty.name n) newId, newId) := by
      show addArrayDimensionFuel s (anc + 1) anc tyId n = _
      simp only [addArrayDimensionFuel, if_neg hn, hanc, hty, hroot, hfind, add]
      rw [← hu2, ← hmk, ← hnewId, ← hu3, hadd]
    rw [hred1, hcall1]
    show addArrayDimension (setSlot u3 anc (getArrayName ty.name n) newId) a2 tyId n =
      (setSlot u3 anc (getArrayName ty.name n) newId, newId)
    set T2 := { T1 with
      symbols := assocSet T1.symbols (getArrayName ty.name n) newId } with hT2
    set s4 := setSlot u3 anc (getArrayName ty.name n) newId with hs4
    have hs4eq : s4 = { u3 with tables := u3.tables.set anc T2 } := by
      rw [hs4, hT2]; simp only [setSlot, hu3tab]
    have hwf2 : u3.wfB = true := by
      have h1 : u3.wfB = u2.wfB := wfB_congr htu3
      have h2 : u2.wfB = true := by
        rw [hu2eq]
        exact wfB_set hwf hanc (by rw [hT1])
      exact h1.trans h2
    have hwf4 : s4.wfB = true := by
      rw [hs4eq]
      exact wfB_set hwf2 hu3tab (by rw [hT2])
    have hclimb2 : climbsB s4 k2 a2 anc = true := by
      rw [hs4eq]
      rw [climbsB_set hu3tab (by rw [hT2]) (by rw [hT2]) k2 a2 anc]
      rw [climbsB_congr_tables htu3 k2 a2 anc]
      rw [hu2eq]
      rw [climbsB_set hanc (by rw [hT1]) (by rw [hT1]) k2 a2 anc]
      exact hc2
    have hty4 : s4.syms[tyId]? = some ty := by
      rw [hs4eq]
      show u3.syms[tyId]? = some ty
      rw [hu3]
      show (u2.syms ++ [mk2])[tyId]? = some ty
      have hlt : tyId < u2.syms.length := by
        rw [hu2syms]; exact (List.getElem?_eq_some_iff.mp hty).1
      rw [List.getElem?_append_left hlt, hu2syms]
      exact hty
    rw [addArrayDimension_climb hwf4 hty4 hbi hn k2 a2 anc hclimb2]
    show addArrayDimensionFuel s4 (anc + 1) anc tyId n = (s4, newId)
    have hanc4 : s4.tables[anc]? = some T2 := by
      rw [hs4eq]
      show (u3.tables.set anc T2)[anc]? = some T2
      exact List.getElem?_set_self (List.getElem?_eq_some_iff.mp hu3tab).1
    have hroot4 : T2.parent = none := by
      rw [hT2, hT1]
      exact hroot
    have hfind4 : find s4 anc (getArrayName ty.name n) = some newId := by
      refine lookup_local hanc4 ?_
      show assocFind T2.symbols (getArrayName ty.name n) = some newId
      rw [hT2]
      exact assocFind_assocSet_self T1.symbols _ newId
    simp only [addArrayDimensionFuel, if_neg hn, hanc4, hty4, hroot4, hroot, hfind4]

/-- Witness for C4: the builtin type `float` arrayed with size 4 from the
two sibling scopes 1 and 2 under the builtin root 0. -/
theorem addArrayDimension_cache_hit_witness :
    addArrayDimension (addArrayDimension exC4 1 0 4).1 2 0 4 =
      addArrayDimension exC4 1 0 4 :=
  addArrayDimension_cache_hit exC4 1 1 1 2 0 0 4 (by decide) (by decide) (by decide)
    rfl rfl rfl rfl (by decide)

end SkSL
